import Mathlib

/-!
# Verification of `src/wggf-monthly-digest.py`

A shallow embedding in Lean 4 of the WGGF monthly-digest scraper, together
with theorems settling the behavioural claims of the specification.

The embedding follows the Python source function by function:

* `data_url` — the URL enumerator template (lines 122–129);
* `url_to_filename` — filename derivation from a URL (lines 132–137),
  modelled over Python's `str.split` / `str.replace` semantics;
* `is_empty` — the placeholder classifier (lines 140–148), plus a dynamic
  (`PyVal`) model of its `try/except` fallback;
* `utf8DecodeIgnore` — UTF-8 decoding with `errors="ignore"` as used by
  `response.text(encoding="utf-8", errors="ignore")` (line 158);
* `get_digest` — the fetcher (lines 151–174) over an abstract HTTP response;
* `ProgressBar.update` — the progress reporter (lines 102–119);
* `fetchLoop` — the orchestrator's result-consumption loop (lines 191–197),
  with an explicit model of filesystem write failure;
* `sessionRun` — the event trace of one run of `fetch` (lines 183–197).
-/

/-- `AUTH_URL` from line 14 of the source. -/
def AUTH_URL : String := "https://list.genealogy.net/mm/private/westfalengen/"

/-- `DATA_URL` from line 15 of the source. -/
def DATA_URL : String := "https://list.genealogy.net/mm/archiv/westfalengen/"

/-- Python `f"{month:02d}"` for a natural number: zero-pad to two digits. -/
def pad2 (month : Nat) : String :=
  if month < 10 then "0" ++ toString month else toString month

/-- `data_url(year, month)` (source lines 122–129): the candidate URL for one
month, `DATA_URL + f"{year}-{month:02d}/{year}-{month:02d}f.html"`. -/
def data_url (year month : Nat) : String :=
  let year_str := toString year
  let month_str := pad2 month
  DATA_URL ++ (year_str ++ "-" ++ month_str ++ "/" ++ year_str ++ "-" ++ month_str ++ "f.html")

/-- Python `str.split(sep)` for a single-character separator, over character
lists: splits at every occurrence of `c`, keeping empty pieces, and always
returns at least one piece (`"".split(c) == [""]`). -/
def splitOnChar (c : Char) : List Char → List (List Char)
  | [] => [[]]
  | x :: xs =>
    if x = c then [] :: splitOnChar c xs
    else
      match splitOnChar c xs with
      | [] => [[x]]
      | p :: ps => (x :: p) :: ps

/-- Python `s.split(c)` on strings (single-character separator). -/
def pySplit (s : String) (c : Char) : List String :=
  (splitOnChar c s.toList).map String.mk

/-- Python `s.replace("f.html", "")` over a character list: remove every
(non-overlapping, leftmost-first) occurrence of `"f.html"`. -/
def removeFHtml : List Char → List Char
  | 'f' :: '.' :: 'h' :: 't' :: 'm' :: 'l' :: rest => removeFHtml rest
  | x :: xs => x :: removeFHtml xs
  | [] => []

/-- `url_to_filename(url)` (source lines 132–137).

```python
year_str = url.split("/")[-1].split("-")[0]
month_str = url.split("/")[-1].split("-")[1].replace("f.html", "")
return f"wggf-monthly-digest-{year_str}-{month_str}"
```

Python's `[-1]` on a `split` result always succeeds (a split is non-empty),
as does `[0]`; `[1]` raises `IndexError` when the last path segment contains
no `"-"`, which we model as `none`. Note the result carries **no** `".html"`
extension — the caller appends it (line 169). -/
def url_to_filename (url : String) : Option String :=
  let seg := (pySplit url '/').getLastD ""
  let parts := pySplit seg '-'
  let year_str := parts.headD ""
  match parts[1]? with
  | none => none
  | some p1 =>
      let month_str := String.mk (removeFHtml p1.toList)
      some ("wggf-monthly-digest-" ++ year_str ++ "-" ++ month_str)

/-- The placeholder marker the archive serves for a non-existent month
(source line 143). -/
def emptyMarker : String := "existiert nicht"

/-- `is_empty(body)` (source lines 140–148) for a `str` argument:
`"existiert nicht" in body and len(body) < 100`. Python's `in` on strings is
substring containment and `len` counts code points, so we use `List.IsInfix`
on the character lists and `String.length`. For a genuine `str` argument the
`try/except` wrapper never fires (see `is_empty_py` for the dynamic model). -/
def is_empty (body : String) : Bool :=
  decide (emptyMarker.toList <:+: body.toList) && decide (body.length < 100)


/-! ## Dynamic model of `is_empty` (the `try/except` wrapper)

`is_empty` is annotated `body: str` but, being Python, can be handed any
value; the `except Exception` arm (lines 144–148) logs and returns `False`.
For a `str` the guarded expression cannot raise; for other shapes the `in`
operator or `len` raises `TypeError`. `PyVal` models the dynamically-typed
argument and `is_empty_expr` the evaluation of
`"existiert nicht" in body and len(body) < 100`, with Python's
short-circuit `and` and exceptions as `Except`. -/

/-- A dynamically-typed Python value passed to `is_empty`. -/
inductive PyVal where
  | pstr (s : String)
  | pbytes (bs : List Nat)
  | pnone
  deriving DecidableEq

/-- Python `"existiert nicht" in body`: substring test on `str`,
`TypeError` on `bytes` (str-in-bytes) or `None`. -/
def pyContainsMarker : PyVal → Except String Bool
  | .pstr s => .ok (decide (emptyMarker.toList <:+: s.toList))
  | .pbytes _ => .error "TypeError"
  | .pnone => .error "TypeError"

/-- Python `len(body)`: defined on `str` and `bytes`, `TypeError` on `None`. -/
def pyLen : PyVal → Except String Nat
  | .pstr s => .ok s.length
  | .pbytes bs => .ok bs.length
  | .pnone => .error "TypeError"

/-- The guarded expression of `is_empty` (line 143), with Python's
short-circuiting `and`: `len` is only evaluated when the containment test
succeeded and returned `True`. -/
def is_empty_expr (body : PyVal) : Except String Bool := do
  let c ← pyContainsMarker body
  if c then
    let n ← pyLen body
    pure (decide (n < 100))
  else
    pure false

/-- `is_empty` on a dynamically-typed argument (lines 140–148): the
`except Exception` arm turns any raised error into `False`. -/
def is_empty_py (body : PyVal) : Bool :=
  match is_empty_expr body with
  | .ok b => b
  | .error _ => false

/-! ## UTF-8 decoding with `errors="ignore"`

Line 158 decodes the response body with
`response.text(encoding="utf-8", errors="ignore")`. `utf8DecodeAux`
implements the UTF-8 decoder with CPython's error handling: each maximal
invalid subsequence (an invalid lead byte, or a lead byte plus the valid
continuation bytes read before the offending byte, or a truncated sequence
at end of input) triggers the error handler once and decoding resumes at
the offending byte. The handler emits `repl`: `[]` for `"ignore"`
(the bytes are dropped), `[U+FFFD]` for `"replace"`. -/

/-- A UTF-8 continuation byte: `0x80..0xBF`. -/
def contOK (b : Nat) : Bool := 0x80 ≤ b && b ≤ 0xBF

/-- Admissible first continuation byte of a three-byte sequence
(`0xE0` excludes over-long encodings, `0xED` excludes surrogates). -/
def cont1OK3 (b0 c1 : Nat) : Bool :=
  (if b0 = 0xE0 then 0xA0 else 0x80) ≤ c1 && c1 ≤ (if b0 = 0xED then 0x9F else 0xBF)

/-- Admissible first continuation byte of a four-byte sequence
(`0xF0` excludes over-long encodings, `0xF4` caps at `U+10FFFF`). -/
def cont1OK4 (b0 c1 : Nat) : Bool :=
  (if b0 = 0xF0 then 0x90 else 0x80) ≤ c1 && c1 ≤ (if b0 = 0xF4 then 0x8F else 0xBF)

/-- UTF-8 decoder with error handler output `repl` per maximal invalid
subsequence (CPython semantics, see section comment). Recursion is driven
by a fuel counter that each step decreases by one while consuming at least
one byte, so any `fuel ≥ bytes.length` decodes the whole input; the
wrappers below pass `bytes.length`. -/
def utf8DecodeAux (repl : List Char) : Nat → List Nat → List Char
  | 0, _ => []
  | _ + 1, [] => []
  | fuel + 1, b0 :: rest =>
    if b0 ≤ 0x7F then Char.ofNat b0 :: utf8DecodeAux repl fuel rest
    else if 0xC2 ≤ b0 && b0 ≤ 0xDF then
      match rest with
      | [] => repl
      | c1 :: rest2 =>
        if contOK c1 then
          Char.ofNat ((b0 - 0xC0) * 64 + (c1 - 0x80)) :: utf8DecodeAux repl fuel rest2
        else repl ++ utf8DecodeAux repl fuel rest
    else if 0xE0 ≤ b0 && b0 ≤ 0xEF then
      match rest with
      | [] => repl
      | c1 :: rest2 =>
        if cont1OK3 b0 c1 then
          match rest2 with
          | [] => repl
          | c2 :: rest3 =>
            if contOK c2 then
              Char.ofNat ((b0 - 0xE0) * 4096 + (c1 - 0x80) * 64 + (c2 - 0x80)) ::
                utf8DecodeAux repl fuel rest3
            else repl ++ utf8DecodeAux repl fuel rest2
        else repl ++ utf8DecodeAux repl fuel rest
    else if 0xF0 ≤ b0 && b0 ≤ 0xF4 then
      match rest with
      | [] => repl
      | c1 :: rest2 =>
        if cont1OK4 b0 c1 then
          match rest2 with
          | [] => repl
          | c2 :: rest3 =>
            if contOK c2 then
              match rest3 with
              | [] => repl
              | c3 :: rest4 =>
                if contOK c3 then
                  Char.ofNat ((b0 - 0xF0) * 262144 + (c1 - 0x80) * 4096 +
                      (c2 - 0x80) * 64 + (c3 - 0x80)) :: utf8DecodeAux repl fuel rest4
                else repl ++ utf8DecodeAux repl fuel rest3
            else repl ++ utf8DecodeAux repl fuel rest2
        else repl ++ utf8DecodeAux repl fuel rest
    else repl ++ utf8DecodeAux repl fuel rest

/-- The Unicode replacement character `U+FFFD`. -/
def replacementChar : Char := Char.ofNat 0xFFFD

/-- `bytes.decode("utf-8", errors="ignore")`: invalid subsequences are
dropped. This is the decoder the fetcher uses (line 158). -/
def utf8DecodeIgnore (bytes : List Nat) : List Char :=
  utf8DecodeAux [] bytes.length bytes

/-- `bytes.decode("utf-8", errors="replace")`: invalid subsequences become
`U+FFFD`. Not what the source uses — stated for contrast. -/
def utf8DecodeReplace (bytes : List Nat) : List Char :=
  utf8DecodeAux [replacementChar] bytes.length bytes


/-! ## The fetcher `get_digest` (lines 151–174) -/

/-- The transport's answer to `session.get(url)`: HTTP status, the *final*
URL after any redirects (`response.url` in aiohttp), and the raw body
bytes. -/
structure HttpResponse where
  status : Nat
  url : String
  bodyBytes : List Nat
  deriving DecidableEq

/-- `get_digest(url, session)` (lines 151–174) given the transport's
response `resp` to `GET url` and the configured output directory.

* the body is decoded with UTF-8/`ignore` (total, so the `except` arm at
  lines 159–161 is unreachable);
* if `is_empty(body)`, returns `None` (modelled `.ok none`) — the `Empty`
  outcome;
* else if the status is 200, the filename is derived from the final URL
  `resp.url` plus `".html"`, joined under `out_dir`
  (`Path(options["out_dir"], filename)`, modelled as `out_dir ++ "/" ++ _`),
  and `(path, body)` is returned — the `Success` outcome;
* else returns `None` — the `Error` outcome;
* if `url_to_filename` raises `IndexError` (`none`), the exception
  propagates out of `get_digest`, modelled `.error ()`.

The requested `url` is used only in log messages. -/
def get_digest (url : String) (out_dir : String) (resp : HttpResponse) :
    Except Unit (Option (String × String)) :=
  let body := String.mk (utf8DecodeIgnore resp.bodyBytes)
  if is_empty body then .ok none
  else if resp.status = 200 then
    match url_to_filename resp.url with
    | none => .error ()
    | some fn => .ok (some (out_dir ++ "/" ++ fn ++ ".html", body))
  else .ok none

/-! ## The progress bar (lines 79–119)

Only `total` and `finished` influence control flow; the remaining
constructor fields (`prefix`, `suffix`, `decimals`, `length`, `fill`,
`printEnd`) and the stored-but-never-read `iteration` only shape the
rendered text, which is a pure function of the `iteration` argument and
those constants. `update` therefore returns the new state together with
`some iteration` when a bar was printed and `none` when the call was the
post-completion no-op (lines 103–104). -/

structure ProgressBar where
  total : Nat
  finished : Bool
  deriving DecidableEq

/-- `ProgressBar.update(iteration)` (lines 102–115): a no-op once
`finished`; otherwise renders and, exactly when `iteration == total`,
runs `__finish` setting `finished`. -/
def ProgressBar.update (pb : ProgressBar) (iteration : Nat) : ProgressBar × Option Nat :=
  if pb.finished then (pb, none)
  else ({ pb with finished := iteration = pb.total }, some iteration)

/-- Feed a sequence of `update` calls to a bar, collecting the rendered
iterations in order. -/
def runUpdates (pb : ProgressBar) : List Nat → ProgressBar × List Nat
  | [] => (pb, [])
  | i :: is =>
    let u := pb.update i
    let rest := runUpdates u.1 is
    (rest.1, u.2.toList ++ rest.2)

/-! ## The orchestrator's consumption loop (lines 191–197)

```python
for idx, task in enumerate(asyncio.as_completed(tasks)):
    if pb:
        pb.update(idx + 1)
    result = await task
    if result is not None:
        path, body = result
        await write_digest(body, path)
```

`results` is the list of per-task outcomes in completion order
(`asyncio.as_completed` yields them in whatever order they finish), with
`some (path, body)` for a `Success` and `none` for the `Empty`/`Error`
outcomes. `write_digest` (lines 177–180) is `open(file, "w")` + `write`
with **no** exception handling; `writeOk path` models whether the
filesystem accepts the write. On `writeOk path = false` the `OSError`
propagates out of the loop (and out of `fetch`), so consumption stops:
the returned flag records that the run aborted. Returns
(written `(path, body)` pairs, rendered progress iterations, aborted). -/
def fetchLoop (writeOk : String → Bool) :
    Option ProgressBar → Nat → List (Option (String × String)) →
    List (String × String) × List Nat × Bool
  | _, _, [] => ([], [], false)
  | pb, idx, r :: rest =>
    let pbStep : Option ProgressBar × List Nat :=
      match pb with
      | none => (none, [])
      | some p =>
        let u := p.update (idx + 1)
        (some u.1, u.2.toList)
    match r with
    | none =>
      let cont := fetchLoop writeOk pbStep.1 (idx + 1) rest
      (cont.1, pbStep.2 ++ cont.2.1, cont.2.2)
    | some pathBody =>
      if writeOk pathBody.1 then
        let cont := fetchLoop writeOk pbStep.1 (idx + 1) rest
        (pathBody :: cont.1, pbStep.2 ++ cont.2.1, cont.2.2)
      else ([], pbStep.2, true)

/-! ## The session lifecycle of `fetch` (lines 183–197)

One run of `fetch` produces, in order: the `ClientSession()` construction
(line 186), the awaited authentication `POST` (line 188), then — driven by
the event loop — an interleaving of per-URL `GET`s (line 154, each task
starts only after the `POST` completed, since the tasks are first
scheduled by `as_completed` inside the loop) and outcome consumptions
(line 194), and finally the `async with` exit closing the session
(line 187), which happens even when the loop aborts. `sessionRun` builds
the trace for an arbitrary event-loop interleaving `mid` of the middle
events. -/

inductive SessionEvent where
  | sessionOpen
  | authPost
  | issue (url : String)
  | consume (idx : Nat)
  | sessionClose
  deriving DecidableEq

/-- Events the event loop may interleave between authentication and
session close: request issues and outcome consumptions. -/
def SessionEvent.isMid : SessionEvent → Bool
  | .issue _ => true
  | .consume _ => true
  | _ => false

/-- The event trace of one run of `fetch`, for an arbitrary interleaving
`mid` of fetch issues and outcome consumptions. -/
def sessionRun (mid : List SessionEvent) : List SessionEvent :=
  .sessionOpen :: .authPost :: mid ++ [.sessionClose]

/-! ## Helper lemmas -/

theorem splitOnChar_ne_nil (c : Char) (l : List Char) : splitOnChar c l ≠ [] := by
  induction l with
  | nil => simp [splitOnChar]
  | cons x xs ih =>
    rw [splitOnChar]
    split
    · simp
    · rcases h : splitOnChar c xs with _ | ⟨p, ps⟩ <;> simp [h]

theorem mem_splitOnChar_no_sep (c : Char) (l : List Char) :
    ∀ p ∈ splitOnChar c l, c ∉ p := by
  induction l with
  | nil =>
    intro p hp
    simp [splitOnChar] at hp
    simp [hp]
  | cons x xs ih =>
    intro p hp
    rw [splitOnChar] at hp
    by_cases hx : x = c
    · rw [if_pos hx] at hp
      rcases List.mem_cons.mp hp with h1 | h1
      · simp [h1]
      · exact ih p h1
    · rw [if_neg hx] at hp
      rcases h : splitOnChar c xs with _ | ⟨q, qs⟩
      · rw [h] at hp
        simp at hp
        subst hp
        simp
        exact fun hcx => hx hcx.symm
      · rw [h] at hp
        rcases List.mem_cons.mp hp with h1 | h1
        · subst h1
          intro hc
          rcases List.mem_cons.mp hc with h2 | h2
          · exact hx h2.symm
          · exact ih q (by rw [h]; exact List.mem_cons_self q qs) h2
        · exact ih p (by rw [h]; exact List.mem_cons_of_mem q h1)

theorem mem_splitOnChar_mem (c : Char) (l : List Char) :
    ∀ p ∈ splitOnChar c l, ∀ x ∈ p, x ∈ l := by
  induction l with
  | nil =>
    intro p hp
    simp [splitOnChar] at hp
    simp [hp]
  | cons y ys ih =>
    intro p hp x hx
    rw [splitOnChar] at hp
    by_cases hy : y = c
    · rw [if_pos hy] at hp
      rcases List.mem_cons.mp hp with h1 | h1
      · subst h1; simp at hx
      · exact List.mem_cons_of_mem y (ih p h1 x hx)
    · rw [if_neg hy] at hp
      rcases h : splitOnChar c ys with _ | ⟨q, qs⟩
      · rw [h] at hp
        simp at hp
        subst hp
        simp at hx
        simp [hx]
      · rw [h] at hp
        rcases List.mem_cons.mp hp with h1 | h1
        · subst h1
          rcases List.mem_cons.mp hx with h2 | h2
          · simp [h2]
          · exact List.mem_cons_of_mem y
              (ih q (by rw [h]; exact List.mem_cons_self q qs) x h2)
        · exact List.mem_cons_of_mem y
            (ih p (by rw [h]; exact List.mem_cons_of_mem q h1) x hx)

theorem removeFHtml_subset (l : List Char) : ∀ x ∈ removeFHtml l, x ∈ l := by
  induction l using removeFHtml.induct with
  | case1 rest ih =>
    intro x hx
    rw [removeFHtml] at hx
    have := ih x hx
    simp [this]
  | case2 a as h ih =>
    intro x hx
    rw [removeFHtml.eq_2 a as h] at hx
    rcases List.mem_cons.mp hx with h1 | h1
    · simp [h1]
    · exact List.mem_cons_of_mem a (ih x h1)
  | case3 => simp [removeFHtml]

theorem headD_mem {α : Type} (l : List α) (d : α) (h : l ≠ []) : l.headD d ∈ l := by
  cases l with
  | nil => exact absurd rfl h
  | cons a as => simp

theorem getLastD_mem {α : Type} (l : List α) (d : α) (h : l ≠ []) : l.getLastD d ∈ l := by
  rw [List.getLastD_eq_getLast?, List.getLast?_eq_getLast l h]
  simpa using List.getLast_mem h

theorem toList_append (s t : String) : (s ++ t).toList = s.toList ++ t.toList := rfl

/-- Any string produced by `url_to_filename` is the fixed stem followed by
the extracted year and month tokens, and those tokens contain no path
separator (they are carved out of a single path segment). -/
theorem url_to_filename_parts (url fn : String) (h : url_to_filename url = some fn) :
    ∃ y m : String, fn = "wggf-monthly-digest-" ++ y ++ "-" ++ m ∧
      '/' ∉ y.toList ∧ '/' ∉ m.toList := by
  have hsegmem : (pySplit url '/').getLastD "" ∈ pySplit url '/' := by
    apply getLastD_mem
    simp only [pySplit, ne_eq, List.map_eq_nil_iff]
    exact splitOnChar_ne_nil '/' url.toList
  obtain ⟨segl, hsegl, hsegeq⟩ := List.mem_map.mp hsegmem
  have hsegchars : ∀ x ∈ ((pySplit url '/').getLastD "").toList, x ≠ '/' := by
    intro x hx hcontra
    rw [← hsegeq] at hx
    exact mem_splitOnChar_no_sep '/' url.toList segl hsegl (hcontra ▸ hx)
  have hpartsne : pySplit ((pySplit url '/').getLastD "") '-' ≠ [] := by
    simp only [pySplit, ne_eq, List.map_eq_nil_iff]
    exact splitOnChar_ne_nil '-' _
  have hpartchars : ∀ p ∈ pySplit ((pySplit url '/').getLastD "") '-',
      ∀ x ∈ p.toList, x ≠ '/' := by
    intro p hp x hx
    obtain ⟨pl, hpl, hpleq⟩ := List.mem_map.mp hp
    rw [← hpleq] at hx
    exact hsegchars x (mem_splitOnChar_mem '-' _ pl hpl x hx)
  simp only [url_to_filename] at h
  rcases hp1 : (pySplit ((pySplit url '/').getLastD "") '-')[1]? with _ | p1 <;>
    rw [hp1] at h
  · exact absurd h (by simp)
  · simp only [Option.some.injEq] at h
    refine ⟨(pySplit ((pySplit url '/').getLastD "") '-').headD "",
      String.mk (removeFHtml p1.toList), h.symm, ?_, ?_⟩
    · intro hc
      exact hpartchars _ (headD_mem _ "" hpartsne) '/' hc rfl
    · intro hc
      have h1 : '/' ∈ p1.toList := removeFHtml_subset p1.toList '/' hc
      exact hpartchars p1 (List.getElem?_mem hp1) '/' h1 rfl

/-! ## C2: filename derivation versus the URL template -/

/-- C2 counterexample: the claim says `url_to_filename` applied to the
enumerated URL for (2024, 6) yields `"wggf-monthly-digest-2024-6.html"`
(zero-padded month, with extension). The code returns the name **without**
the `".html"` extension, so the claim as stated is false at this input. -/
theorem url_to_filename_no_extension :
    url_to_filename (data_url 2024 6) = some "wggf-monthly-digest-2024-06" ∧
    url_to_filename (data_url 2024 6) ≠ some "wggf-monthly-digest-2024-06.html" := by
  decide

/-- C2 (amended): for every year 2000 ≤ Y ≤ 2026 (the current year) and
month 1 ≤ M ≤ 12, `url_to_filename` applied to the enumerated URL yields
exactly `"wggf-monthly-digest-{Y}-{M}"` with the month zero-padded to two
digits — the extension-free stem; the caller (`get_digest`, line 169)
appends `".html"`, giving `"wggf-monthly-digest-{Y}-{M}.html"`. -/
theorem url_to_filename_left_inverse (dy dm : Nat) (hy : dy < 27) (hm : dm < 12) :
    url_to_filename (data_url (2000 + dy) (1 + dm)) =
      some ("wggf-monthly-digest-" ++ toString (2000 + dy) ++ "-" ++ pad2 (1 + dm)) ∧
    (url_to_filename (data_url (2000 + dy) (1 + dm))).map (fun s => s ++ ".html") =
      some ("wggf-monthly-digest-" ++ toString (2000 + dy) ++ "-" ++ pad2 (1 + dm)
        ++ ".html") := by
  revert hm
  revert dm
  revert hy
  revert dy
  decide

/-- C2 witness: the amended statement evaluated at (Y, M) = (2024, 6). -/
theorem url_to_filename_left_inverse_witness :
    url_to_filename (data_url (2000 + 24) (1 + 5)) =
      some ("wggf-monthly-digest-" ++ toString (2000 + 24) ++ "-" ++ pad2 (1 + 5)) ∧
    (url_to_filename (data_url (2000 + 24) (1 + 5))).map (fun s => s ++ ".html") =
      some ("wggf-monthly-digest-" ++ toString (2000 + 24) ++ "-" ++ pad2 (1 + 5)
        ++ ".html") :=
  url_to_filename_left_inverse 24 5 (by decide) (by decide)

/-! ## C3: the emptiness classifier -/

/-- C3: for every string body, `is_empty body` is `true` exactly when the
marker `"existiert nicht"` occurs in the body as a substring **and** the
body is shorter than 100 characters; in particular any body of length 100
or more is classified non-empty even when it contains the marker. -/
theorem is_empty_iff_marker_and_short (body : String) :
    is_empty body = true ↔
      ("existiert nicht".toList <:+: body.toList ∧ body.length < 100) := by
  simp [is_empty, emptyMarker]

/-! ## C9: the classifier fails open -/

/-- C9: whenever evaluating the emptiness predicate raises (modelled:
`is_empty_expr` returns `.error`), `is_empty` returns `false` — the body is
treated as non-empty rather than silently discarded. -/
theorem is_empty_fail_open (v : PyVal) (e : String)
    (h : is_empty_expr v = .error e) : is_empty_py v = false := by
  simp [is_empty_py, h]

/-- C9 witness: on `None` the predicate raises `TypeError` and the
classifier returns `false`. -/
theorem is_empty_fail_open_witness : is_empty_py .pnone = false :=
  is_empty_fail_open .pnone "TypeError" rfl

/-! ## C5: session lifecycle ordering -/

/-- C5: in every run trace of `fetch` — for an arbitrary event-loop
interleaving `mid` of request issues and outcome consumptions — the
authentication `POST` occurs exactly once, at position 1, strictly before
every fetch issue; and the session close occurs exactly once, as the last
event, strictly after every consumed outcome. -/
theorem session_lifecycle (mid : List SessionEvent)
    (h : ∀ e ∈ mid, e.isMid = true) :
    (sessionRun mid).count .authPost = 1 ∧
    (sessionRun mid)[1]? = some .authPost ∧
    (∀ i u, (sessionRun mid)[i]? = some (.issue u) → 1 < i) ∧
    (sessionRun mid).count .sessionClose = 1 ∧
    (sessionRun mid)[(sessionRun mid).length - 1]? = some .sessionClose ∧
    (∀ i k, (sessionRun mid)[i]? = some (.consume k) →
      i < (sessionRun mid).length - 1) := by
  have hmidauth : mid.count SessionEvent.authPost = 0 := by
    rw [List.count_eq_zero]
    intro hmem
    have := h _ hmem
    simp [SessionEvent.isMid] at this
  have hmidclose : mid.count SessionEvent.sessionClose = 0 := by
    rw [List.count_eq_zero]
    intro hmem
    have := h _ hmem
    simp [SessionEvent.isMid] at this
  have hlen : (sessionRun mid).length = mid.length + 3 := by
    simp [sessionRun]
  have hlast : (sessionRun mid)[(sessionRun mid).length - 1]? =
      some SessionEvent.sessionClose := by
    rw [hlen]
    show (SessionEvent.sessionOpen :: SessionEvent.authPost ::
      (mid ++ [SessionEvent.sessionClose]))[mid.length + 2]? = _
    rw [List.getElem?_cons_succ, List.getElem?_cons_succ,
      List.getElem?_concat_length]
  refine ⟨?_, ?_, ?_, ?_, hlast, ?_⟩
  · simp [sessionRun, List.count_cons, List.count_append, hmidauth]
  · simp [sessionRun]
  · intro i u hi
    cases i with
    | zero => simp [sessionRun] at hi
    | succ j =>
      cases j with
      | zero => simp [sessionRun] at hi
      | succ k => omega
  · simp [sessionRun, List.count_cons, List.count_append, hmidclose]
  · intro i k hi
    have hilt : i < (sessionRun mid).length := by
      by_contra hge
      push_neg at hge
      rw [List.getElem?_eq_none hge] at hi
      exact Option.noConfusion hi
    rcases Nat.lt_or_ge i ((sessionRun mid).length - 1) with hl | hg
    · exact hl
    · have hieq : i = (sessionRun mid).length - 1 := by omega
      rw [hieq, hlast] at hi
      simp at hi

/-- C5 witness: the lifecycle properties on the concrete trace with one
issue and one consumption. -/
theorem session_lifecycle_witness :
    (sessionRun [.issue "u", .consume 0]).count .authPost = 1 ∧
    (sessionRun [.issue "u", .consume 0])[1]? = some .authPost ∧
    (sessionRun
      [.issue "u", .consume 0])[(sessionRun [.issue "u", .consume 0]).length - 1]? =
      some .sessionClose :=
  have h := session_lifecycle [.issue "u", .consume 0] (by decide)
  ⟨h.1, h.2.1, h.2.2.2.2.1⟩

/-! ## C8: the progress reporter completes exactly once -/

/-- C8: feeding a fresh bar any call sequence whose first `total`-valued
call is preceded by `pre` and followed by `post`, (a) exactly the calls up
to and including that first `total` render — `100%` is reached exactly
once and every later call renders nothing; (b) the state after the run is
the completed state, unchanged by the calls in `post`; (c) rendered
progress is monotonically non-decreasing whenever the calls made before
completion are. -/
theorem progress_completes_once (total : Nat) (pre post : List Nat)
    (h : total ∉ pre) :
    (runUpdates ⟨total, false⟩ (pre ++ total :: post)).2 = pre ++ [total] ∧
    (runUpdates ⟨total, false⟩ (pre ++ total :: post)).1 = ⟨total, true⟩ ∧
    (List.Chain' (· ≤ ·) (pre ++ [total]) →
      List.Chain' (· ≤ ·) ((runUpdates ⟨total, false⟩ (pre ++ total :: post)).2)) := by
  have hfin : ∀ calls : List Nat,
      runUpdates ⟨total, true⟩ calls = (⟨total, true⟩, []) := by
    intro calls
    induction calls with
    | nil => rfl
    | cons i is ih => simp [runUpdates, ProgressBar.update, ih]
  have hmain : (runUpdates ⟨total, false⟩ (pre ++ total :: post)).2 = pre ++ [total] ∧
      (runUpdates ⟨total, false⟩ (pre ++ total :: post)).1 = ⟨total, true⟩ := by
    induction pre with
    | nil =>
      simp [runUpdates, ProgressBar.update, hfin]
    | cons x xs ih =>
      have hx : x ≠ total := fun hc => h (hc ▸ List.mem_cons_self x xs)
      have hrec := ih (fun hc => h (List.mem_cons_of_mem x hc))
      simp [runUpdates, ProgressBar.update, hx, hrec.1, hrec.2]
  exact ⟨hmain.1, hmain.2, fun hch => hmain.1 ▸ hch⟩

/-- C8 witness: the statement evaluated with `total = 2`, calls
`[1, 2, 3, 4]`. -/
theorem progress_completes_once_witness :
    (runUpdates ⟨2, false⟩ ([1] ++ 2 :: [3, 4])).2 = [1] ++ [2] ∧
    (runUpdates ⟨2, false⟩ ([1] ++ 2 :: [3, 4])).1 = ⟨2, true⟩ ∧
    (List.Chain' (· ≤ ·) ([1] ++ [2]) →
      List.Chain' (· ≤ ·) ((runUpdates ⟨2, false⟩ ([1] ++ 2 :: [3, 4])).2)) :=
  progress_completes_once 2 [1] [3, 4] (by decide)

/-! ## C4: the writer runs exactly once per Success -/

/-- When every attempted write succeeds, the consumption loop writes
exactly the Success outcomes, in completion order, and does not abort. -/
theorem fetchLoop_all_ok (writeOk : String → Bool) :
    ∀ (results : List (Option (String × String))) (pb : Option ProgressBar) (idx : Nat),
    (∀ pr ∈ results, ∀ path body, pr = some (path, body) → writeOk path = true) →
    (fetchLoop writeOk pb idx results).1 = results.filterMap id ∧
    (fetchLoop writeOk pb idx results).2.2 = false := by
  intro results
  induction results with
  | nil => intro pb idx h; simp [fetchLoop]
  | cons r rest ih =>
    intro pb idx h
    have hrest := fun pb2 idx2 =>
      ih pb2 idx2 (fun pr hpr => h pr (List.mem_cons_of_mem r hpr))
    rcases r with _ | ⟨path, body⟩
    · simp only [fetchLoop, List.filterMap_cons_none (f := id) rfl]
      exact hrest _ _
    · have hw : writeOk path = true := h _ (List.mem_cons_self _ _) path body rfl
      simp only [fetchLoop, hw, if_true,
        List.filterMap_cons_some (f := id) rfl, List.cons.injEq, true_and]
      exact hrest _ _

/-- C4: in a run over any list of fetch outcomes in which every write
succeeds, the Writer is invoked exactly once per `Success` outcome: the
written files are exactly the Success payloads, their number is the count
K of Success outcomes, and that number is the same for every completion
order (permutation) of the outcomes; `Empty`/`Error` outcomes (`none`)
produce no file. -/
theorem writer_invoked_once_per_success (results : List (Option (String × String)))
    (writeOk : String → Bool) (pb : Option ProgressBar)
    (h : ∀ pr ∈ results, ∀ path body, pr = some (path, body) → writeOk path = true) :
    (fetchLoop writeOk pb 0 results).1 = results.filterMap id ∧
    (fetchLoop writeOk pb 0 results).1.length = results.countP Option.isSome ∧
    (∀ results2 : List (Option (String × String)), results.Perm results2 →
      (fetchLoop writeOk pb 0 results2).1.length =
        (fetchLoop writeOk pb 0 results).1.length) := by
  have h1 := fetchLoop_all_ok writeOk results pb 0 h
  have hlen : ∀ l : List (Option (String × String)),
      (l.filterMap id).length = l.countP Option.isSome := by
    intro l
    induction l with
    | nil => simp
    | cons r rest ih => rcases r with _ | a <;> simp [List.countP_cons, ih]
  refine ⟨h1.1, ?_, ?_⟩
  · rw [h1.1]; exact hlen results
  · intro results2 hperm
    have h2 := fetchLoop_all_ok writeOk results2 pb 0
      (fun pr hpr => h pr (hperm.mem_iff.mpr hpr))
    rw [h1.1, h2.1, hlen results, hlen results2]
    exact (hperm.countP_eq _).symm

/-- C4 witness: three outcomes of which two are Success, all writes
succeeding: exactly those two files are written. -/
theorem writer_invoked_once_per_success_witness :
    (fetchLoop (fun _ => true) none 0 [some ("a", "1"), none, some ("b", "2")]).1 =
      [some ("a", "1"), none, some ("b", "2")].filterMap id ∧
    (fetchLoop (fun _ => true) none 0 [some ("a", "1"), none, some ("b", "2")]).1.length =
      [some ("a", "1"), none, some ("b", "2")].countP Option.isSome :=
  have h := writer_invoked_once_per_success [some ("a", "1"), none, some ("b", "2")]
    (fun _ => true) none (fun pr _ path body _ => rfl)
  ⟨h.1, h.2.1⟩

/-! ## C1: a write failure aborts the run -/

/-- C1 counterexample: two Success outcomes; writing the first fails. The
claim says the error only drops that item and every subsequent Success is
still written — but the loop aborts: nothing is written, the second
Success `("b", "2")` included, and the run terminates abnormally. -/
theorem write_error_aborts_counterexample :
    (fetchLoop (fun p => p != "a") none 0 [some ("a", "1"), some ("b", "2")]).1 = [] ∧
    ("b", "2") ∉ (fetchLoop (fun p => p != "a") none 0 [some ("a", "1"), some ("b", "2")]).1 ∧
    (fetchLoop (fun p => p != "a") none 0 [some ("a", "1"), some ("b", "2")]).2.2 = true := by
  decide

/-- C1 (amended): `write_digest` has no exception handling, so a
`WriteError` on one item propagates out of the consumption loop and aborts
the run: exactly the Success items consumed before the failing one are
written, the failing item and every outcome after it (Success included)
are dropped, and the loop records an abnormal termination. -/
theorem write_error_aborts (writeOk : String → Bool) (path body : String)
    (hfail : writeOk path = false) :
    ∀ (pre : List (Option (String × String))) (pb : Option ProgressBar)
      (idx : Nat) (post : List (Option (String × String))),
    (∀ pr ∈ pre, ∀ q c, pr = some (q, c) → writeOk q = true) →
    (fetchLoop writeOk pb idx (pre ++ some (path, body) :: post)).1 = pre.filterMap id ∧
    (fetchLoop writeOk pb idx (pre ++ some (path, body) :: post)).2.2 = true := by
  intro pre
  induction pre with
  | nil =>
    intro pb idx post hpre
    simp [fetchLoop, hfail]
  | cons r rest ih =>
    intro pb idx post hpre
    have hrec := fun pb2 =>
      ih pb2 (idx + 1) post (fun pr hpr => hpre pr (List.mem_cons_of_mem r hpr))
    rcases r with _ | ⟨q, c⟩
    · simp only [List.cons_append, fetchLoop, List.filterMap_cons_none (f := id) rfl]
      exact hrec _
    · have hw : writeOk q = true := hpre _ (List.mem_cons_self _ _) q c rfl
      simp only [List.cons_append, fetchLoop, hw, if_true,
        List.filterMap_cons_some (f := id) rfl, List.cons.injEq, true_and]
      exact hrec _

/-- C1 witness: one successful write, then the failing item, then a
further Success: only the first item is written, and the run aborts. -/
theorem write_error_aborts_witness :
    (fetchLoop (fun p => p != "a") none 0
      ([some ("x", "0")] ++ some ("a", "1") :: [some ("b", "2")])).1 =
      [some (("x" : String), ("0" : String))].filterMap id ∧
    (fetchLoop (fun p => p != "a") none 0
      ([some ("x", "0")] ++ some ("a", "1") :: [some ("b", "2")])).2.2 = true :=
  write_error_aborts (fun p => p != "a") "a" "1" rfl [some ("x", "0")] none 0
    [some ("b", "2")]
    (by
      rintro pr hpr q c rfl
      rw [List.mem_singleton] at hpr
      rw [Option.some.injEq, Prod.mk.injEq] at hpr
      rw [hpr.1]
      rfl)

/-! ## C6: Success derives its filename from the final URL -/

/-- C6: whenever the response status is 200 and the decoded body is
classified non-empty, `get_digest` returns a `Success` whose destination
path is built from the **final** response URL `resp.url` (after any
redirects), and the originally requested URL plays no role: the outcome is
identical for any two requested URLs backed by the same response. -/
theorem success_uses_final_url (url1 url2 out_dir : String) (resp : HttpResponse)
    (fn : String)
    (hbody : is_empty (String.mk (utf8DecodeIgnore resp.bodyBytes)) = false)
    (hstatus : resp.status = 200)
    (hfn : url_to_filename resp.url = some fn) :
    get_digest url1 out_dir resp =
      .ok (some (out_dir ++ "/" ++ fn ++ ".html",
        String.mk (utf8DecodeIgnore resp.bodyBytes))) ∧
    get_digest url1 out_dir resp = get_digest url2 out_dir resp := by
  constructor
  · simp [get_digest, hbody, hstatus, hfn]
  · rfl

/-- C6 witness: the URL requested for 2024-06 redirects to the 2024-07
page; the destination filename is derived from the redirected URL. -/
theorem success_uses_final_url_witness :
    get_digest (data_url 2024 6) "out"
      ⟨200, data_url 2024 7, [0x68, 0x65, 0x6C, 0x6C, 0x6F]⟩ =
      .ok (some ("out" ++ "/" ++ "wggf-monthly-digest-2024-07" ++ ".html",
        String.mk (utf8DecodeIgnore [0x68, 0x65, 0x6C, 0x6C, 0x6F]))) ∧
    get_digest (data_url 2024 6) "out"
      ⟨200, data_url 2024 7, [0x68, 0x65, 0x6C, 0x6C, 0x6F]⟩ =
      get_digest (data_url 2024 8) "out"
        ⟨200, data_url 2024 7, [0x68, 0x65, 0x6C, 0x6C, 0x6F]⟩ :=
  success_uses_final_url (data_url 2024 6) (data_url 2024 8) "out"
    ⟨200, data_url 2024 7, [0x68, 0x65, 0x6C, 0x6C, 0x6F]⟩
    "wggf-monthly-digest-2024-07" (by decide) rfl (by decide)

/-! ## C7: decoding drops undecodable bytes instead of replacing them -/

/-- C7 counterexample: the fetcher decodes with `errors="ignore"`, so an
undecodable byte (here `0xFF` between two ASCII bytes) is **dropped**: no
replacement character appears in the decoded body, contradicting the claim
that undecodable bytes appear as replacement characters. -/
theorem decode_ignores_not_replaces :
    utf8DecodeIgnore [0x61, 0xFF, 0x62] = ['a', 'b'] ∧
    replacementChar ∉ utf8DecodeIgnore [0x61, 0xFF, 0x62] ∧
    utf8DecodeIgnore [0x61, 0xFF, 0x62] ≠ ['a', replacementChar, 'b'] ∧
    utf8DecodeIgnore [0x61, 0xFF, 0x62] ≠ utf8DecodeReplace [0x61, 0xFF, 0x62] := by
  decide

/-- C7 (amended): the fetcher decodes with fixed UTF-8 and
`errors="ignore"`: decoding never fails, and an undecodable byte is
silently dropped — the surrounding decodable content is preserved without
any replacement character being introduced. -/
theorem decode_ignore_drops_bad_byte (a b : List Nat)
    (ha : ∀ x ∈ a, x ≤ 0x7F) :
    utf8DecodeIgnore (a ++ 0xFF :: b) = a.map Char.ofNat ++ utf8DecodeIgnore b := by
  induction a with
  | nil =>
    simp only [List.nil_append, List.map_nil]
    show utf8DecodeAux [] ((0xFF :: b).length) (0xFF :: b) = utf8DecodeIgnore b
    simp [utf8DecodeAux, utf8DecodeIgnore]
  | cons x xs ih =>
    have hx : x ≤ 0x7F := ha x (List.mem_cons_self x xs)
    have hxs := ih (fun y hy => ha y (List.mem_cons_of_mem x hy))
    simp only [utf8DecodeIgnore] at hxs ⊢
    simp only [List.cons_append, List.length_cons, List.map_cons]
    simp only [utf8DecodeAux]
    rw [if_pos hx, hxs]

/-- C7 witness: the amended statement on `"h" ++ bad byte ++ "i"`. -/
theorem decode_ignore_drops_bad_byte_witness :
    utf8DecodeIgnore ([0x68] ++ 0xFF :: [0x69]) =
      [0x68].map Char.ofNat ++ utf8DecodeIgnore [0x69] :=
  decode_ignore_drops_bad_byte [0x68] [0x69] (by decide)

/-! ## C10: every Success path is a direct child of the output directory -/

/-- C10: every destination path of a `Success` outcome is the configured
output directory plus a single filename component: the filename contains
no path separator (so no subdirectory is involved), starts with
`"wggf-monthly-digest-"` and ends with `".html"`. -/
theorem success_path_in_outdir (url out_dir : String) (resp : HttpResponse)
    (p b : String) (h : get_digest url out_dir resp = .ok (some (p, b))) :
    ∃ fn : String, p = out_dir ++ "/" ++ fn ∧ '/' ∉ fn.toList ∧
      "wggf-monthly-digest-".toList <+: fn.toList ∧
      ".html".toList <:+ fn.toList := by
  simp only [get_digest] at h
  by_cases hemp : is_empty (String.mk (utf8DecodeIgnore resp.bodyBytes))
  · rw [if_pos hemp] at h
    simp at h
  · rw [if_neg hemp] at h
    by_cases hst : resp.status = 200
    · rw [if_pos hst] at h
      rcases hfn : url_to_filename resp.url with _ | fn0 <;> rw [hfn] at h
      · simp at h
      · simp only [Except.ok.injEq, Option.some.injEq, Prod.mk.injEq] at h
        obtain ⟨hpeq, hbeq⟩ := h
        obtain ⟨y, m, hfn0, hy, hm⟩ := url_to_filename_parts _ _ hfn
        refine ⟨fn0 ++ ".html", ?_, ?_, ?_, ?_⟩
        · rw [← hpeq, String.append_assoc]
        · intro hc
          have hc2 : '/' ∈ fn0.toList ++ ".html".toList := hc
          rcases List.mem_append.mp hc2 with h1 | h1
          · rw [hfn0] at h1
            have h2 : '/' ∈ ("wggf-monthly-digest-" ++ y ++ "-" ++ m).toList := h1
            have h3 : '/' ∈ (("wggf-monthly-digest-" ++ y ++ "-").toList ++ m.toList) := h2
            rcases List.mem_append.mp h3 with h4 | h4
            · have h5 : '/' ∈ (("wggf-monthly-digest-" ++ y).toList ++ "-".toList) := h4
              rcases List.mem_append.mp h5 with h6 | h6
              · have h7 : '/' ∈ ("wggf-monthly-digest-".toList ++ y.toList) := h6
                rcases List.mem_append.mp h7 with h8 | h8
                · revert h8; decide
                · exact hy h8
              · revert h6; decide
            · exact hm h4
          · revert h1; decide
        · rw [hfn0]
          refine ⟨y.toList ++ ("-".toList ++ (m.toList ++ ".html".toList)), ?_⟩
          simp [toList_append, List.append_assoc]
        · exact ⟨fn0.toList, rfl⟩
    · rw [if_neg hst] at h
      simp at h

/-- C10 witness: a concrete Success outcome; its path decomposes as
required. -/
theorem success_path_in_outdir_witness :
    ∃ fn : String,
      ("out" ++ "/" ++ "wggf-monthly-digest-2024-07" ++ ".html" : String) =
        "out" ++ "/" ++ fn ∧ '/' ∉ fn.toList ∧
      "wggf-monthly-digest-".toList <+: fn.toList ∧
      ".html".toList <:+ fn.toList :=
  success_path_in_outdir (data_url 2024 7) "out"
    ⟨200, data_url 2024 7, [0x68, 0x69]⟩
    ("out" ++ "/" ++ "wggf-monthly-digest-2024-07" ++ ".html") (String.mk ['h', 'i'])
    rfl
